import Mathlib

/-!
Verification of the parallel-motion analysis engine of the hmmm repository.

The engine lives in the `Composition` class: voices are time-indexed lists of
MIDI note numbers; the class computes pairwise pitch-class intervals over
time (`timeline`), flags voice pairs that hold a banned interval across two
consecutive time steps (`motionTimeline`), and validates a composition by a
length check followed by a motion check.

Embedding conventions:
  - JavaScript numbers holding MIDI pitches are embedded as `Int` (the code
    subtracts pitches, so negative values arise); time/voice indices as `Nat`.
  - The JavaScript remainder operator `%` truncates toward zero, which is
    `Int.tmod` (not Lean's `%` on `Int`, which is the Euclidean `emod`).
  - The jagged upper-triangular matrices are built with sparse arrays: row `i`
    receives assignments only at columns `j > i`, so columns `0..i` are holes
    (reads give `undefined`).  A row is embedded as a `List (Option _)`, a
    hole as `none`.  A row that never received an assignment has length 0.
  - Methods that can throw are embedded as `Except String Unit`, the thrown
    message being the error value; the fallible constructor returns `Option`.
  - Array reads at indices proved in range are embedded with `List.getD`
    (the default is never reached at those sites).
-/

namespace Hmmm

/-- Interval between two pitches, from the source:
`(((n1 - n2) % 12) + 12) % 12`, with `%` the JavaScript truncating
remainder, i.e. `Int.tmod`. -/
def interval (n1 n2 : ℤ) : ℤ :=
  (((n1 - n2).tmod 12) + 12).tmod 12

/-- The fixed banned interval set of the source:
`static bannedIntervals = [0, 5, 7]`. -/
def bannedIntervals : List ℤ := [0, 5, 7]

/-- Voice preprocessing, from the source `processMidis`: each MIDI track is
reduced to its list of note numbers, and when `loop` is set the first note is
appended to the end (`notes.push(notes[0])`).  The external MIDI parsing is
abstracted: a midi arrives as its list of note numbers.  On an empty note
list the source reads `notes[0]` as `undefined`; `List.headI` stands in with
its default, and theorems that depend on the appended value assume the list
is nonempty. -/
def processMidis (midis : List (List ℤ)) (loop : Bool) : List (List ℤ) :=
  midis.map fun notes =>
    if loop then notes ++ [notes.headI] else notes

/-- The data model: a composition is a list of voices together with the
recorded common length (set by the constructor from the first voice). -/
structure Composition where
  voices : List (List ℤ)
  length : ℕ
deriving DecidableEq, Repr

/-- The constructor, from the source: `this.voices =
Composition.processMidis(midis, true); this.length = this.voices[0].length`.
Reading `this.voices[0].length` on an empty voice list is a runtime fault in
the source (property access on `undefined`), embedded as `none`. -/
def Composition.mk? (noteLists : List (List ℤ)) : Option Composition :=
  let voices := processMidis noteLists true
  match voices.head? with
  | none => none
  | some v0 => some ⟨voices, v0.length⟩

/-- Note of voice `i` at time `t`, `voices[i][t]`.  Out-of-range reads give
`undefined` in the source; the default `0` is only reached at such sites. -/
def noteAt (c : Composition) (i t : ℕ) : ℤ :=
  (c.voices.getD i []).getD t 0

/-- Row `i` of the timeline matrix at time `t`, from the source `timeline`
getter: the row receives `interval(voices[i][t], voices[j][t])` at each
column `j` from `i+1` to `V-1`; columns up to `i` stay holes.  When no
assignment happens (`i+1 ≥ V`) the row keeps length 0. -/
def timelineRow (c : Composition) (t i : ℕ) : List (Option ℤ) :=
  if i + 1 < c.voices.length then
    (List.range c.voices.length).map fun j =>
      if i < j then some (interval (noteAt c i t) (noteAt c j t)) else none
  else []

/-- The timeline matrix at time `t`: one row per voice index. -/
def timelineMatrix (c : Composition) (t : ℕ) : List (List (Option ℤ)) :=
  (List.range c.voices.length).map fun i => timelineRow c t i

/-- The timeline, from the source getter: for each time `t` below
`this.length`, the matrix of pairwise intervals at `t`. -/
def Composition.timeline (c : Composition) : List (List (List (Option ℤ))) :=
  (List.range c.length).map fun t => timelineMatrix c t

/-- Row `i` of the motion matrix at a non-final time `t`, from the body of
the source `motionTimeline` getter: `intervals` is row `i` of the matrix at
`t` and `nextIntervals` is row `i` of the matrix at `t+1` (the branch is
only taken when `timeline[t+1]` exists, and it is then `timelineMatrix c
(t+1)`).  A missing `nextIntervals` leaves the row empty (`continue`);
otherwise column `j` from `i+1` to `intervals.length - 1` receives
`banned.includes(interval) && interval === next`; a read of a hole compares
as `undefined`, making the stored value `false` (the inner match). -/
def motionRow (c : Composition) (t i : ℕ) : List (Option Bool) :=
  let intervals := (timelineMatrix c t).getD i []
  match (timelineMatrix c (t + 1)).get? i with
  | none => []
  | some nextIntervals =>
    (List.range intervals.length).map fun j =>
      if i + 1 ≤ j then
        some (match intervals.getD j none, nextIntervals.getD j none with
          | some int, some nxt =>
              decide (int ∈ bannedIntervals) && decide (int = nxt)
          | _, _ => false)
      else none

/-- The motion timeline, from the source getter: `timeline.map((matrix, t) =>
...)` — one output matrix per time step, the matrix at index `t` of the
timeline being `timelineMatrix c t`.  When `timeline[t+1]` is absent (`t` is
the final index) every row stays empty (the `continue` branch runs for every
`i`); otherwise the rows are given by `motionRow`. -/
def Composition.motionTimeline (c : Composition) :
    List (List (List (Option Bool))) :=
  (List.range c.length).map fun t =>
    match c.timeline.get? (t + 1) with
    | none => (timelineMatrix c t).map fun _ => ([] : List (Option Bool))
    | some _ =>
      (List.range (timelineMatrix c t).length).map fun i => motionRow c t i

/-- Scan of one motion row in `validateMotion` source order: the `for (const
[j, check] of row.entries())` loop records the site for every truthy entry
(holes and `false` entries are falsy). -/
def scanRow (t i : ℕ) (row : List (Option Bool)) : List (ℕ × ℕ × ℕ) :=
  ((List.range row.length).map fun j =>
    if row.getD j none = some true then [(t, i, j)] else []).flatten

/-- Scan of one motion matrix in `validateMotion` source order. -/
def scanMatrix (t : ℕ) (m : List (List (Option Bool))) : List (ℕ × ℕ × ℕ) :=
  ((List.range m.length).map fun i => scanRow t i (m.getD i [])).flatten

/-- The ordered list of violation sites `(t, i, j)` collected by the triple
loop of the source `validateMotion`. -/
def Composition.violations (c : Composition) : List (ℕ × ℕ × ℕ) :=
  ((List.range c.motionTimeline.length).map fun t =>
    scanMatrix t (c.motionTimeline.getD t [])).flatten

/-- One line of the failure message of the source `validateMotion`, with the
1-based voice numbers of the source template literal. -/
def violationLine (t i j : ℕ) : String :=
  s!"Parallel motion detected at time {t} between voices {i + 1} and {j + 1}\n"

/-- The source `validateMotion`: the triple loop sets `detected` when some
entry is truthy and accumulates one message line per violation, in scan
order; it throws the accumulated message exactly when `detected`. -/
def Composition.validateMotion (c : Composition) : Except String Unit :=
  let vs := c.violations
  if vs = [] then Except.ok ()
  else Except.error
    (vs.foldl (fun msg v => msg ++ violationLine v.1 v.2.1 v.2.2) "")

/-- The source `validateLength`: throws the fixed message when some voice's
length differs from `this.length`. -/
def Composition.validateLength (c : Composition) : Except String Unit :=
  if c.voices.any fun voice => voice.length ≠ c.length then
    Except.error "Voices are not the same length"
  else Except.ok ()

/-- The per-voice length mismatches, `(voice index, actual length)` for every
voice whose length differs from the recorded length.  This data is what the
specification says the length error carries; the source error value does not
contain it (see the theorems below). -/
def Composition.mismatches (c : Composition) : List (ℕ × ℕ) :=
  ((List.range c.voices.length).map fun k =>
    if (c.voices.getD k []).length ≠ c.length
    then [(k, (c.voices.getD k []).length)] else []).flatten

/-- The source `validate`: `validateLength` first (its throw propagates),
then `validateMotion`.  The `DEBUG` logging block is compiled out (`DEBUG =
false` in the source) and writes only to the console in any case. -/
def Composition.validate (c : Composition) : Except String Unit :=
  match c.validateLength with
  | Except.error e => Except.error e
  | Except.ok _ => c.validateMotion

/-- Method-call embedding of `validate` as a state transformer: the source
method body (lines 133-144) contains no assignment to any field of `this`,
so the post-state is the unchanged receiver. -/
def Composition.validateRun (c : Composition) :
    Except String Unit × Composition :=
  (c.validate, c)

/-!
Historical variant of the engine (src/index.ts): the interval grid stores
each row compactly by `push`, so the value for the pair `(i, j)` sits at
offset `j - i - 1` of row `i`, and the parallel-motion matrices compare rows
at matching offsets.  The length check is the same as the current variant.
-/

/-- Row `i` of the interval grid at time `t`, from the source
`intervalGrid` getter: the `for` loop pushes
`interval(voices[i][t], voices[j][t])` for `j` from `i+1` to `V-1`, so the
row is the compact list of those values in `j` order. -/
def intervalGridRow (c : Composition) (t i : ℕ) : List ℤ :=
  (List.range (c.voices.length - (i + 1))).map fun k =>
    interval (noteAt c i t) (noteAt c (i + 1 + k) t)

/-- The interval grid, from the source getter: one matrix per time step,
one compact row per voice index. -/
def Composition.intervalGrid (c : Composition) : List (List (List ℤ)) :=
  (List.range c.length).map fun t =>
    (List.range c.voices.length).map fun i => intervalGridRow c t i

/-- The parallel-motion matrices, from the source `parallelMotion` getter:
`grid.map((ic, gIdx) => ...)`, so one output matrix per time step with `ic`
the matrix at that step.  A missing next matrix (final step) or a missing
next row yields an empty row (`return []`); otherwise entry `iIdx` of row
`icIdx` is false when the interval is not banned, and otherwise compares it
with `nextIntervals[iIdx]` (a JavaScript read past the end gives `undefined`,
which compares unequal — embedded by comparing with `get?`).  This is the
row of the matrix at a non-final step `t`; the branch is only taken when
`grid[gIdx + 1]` exists, and that matrix is then the mapped row list at
`t+1`. -/
def pmRow (c : Composition) (t i : ℕ) : List Bool :=
  let intervals := intervalGridRow c t i
  match ((List.range c.voices.length).map fun v => intervalGridRow c (t + 1) v).get? i with
  | none => []
  | some nextIntervals =>
    (List.range intervals.length).map fun k =>
      if intervals.getD k 0 ∈ bannedIntervals then
        decide (nextIntervals.get? k = some (intervals.getD k 0))
      else false

/-- The parallel-motion matrices, from the source `parallelMotion` getter:
`grid.map((ic, gIdx) => ...)` — one matrix per time step, `ic` being the
mapped row list at `t`; when the final step has no successor matrix every
row is empty. -/
def Composition.parallelMotion (c : Composition) : List (List (List Bool)) :=
  (List.range c.length).map fun t =>
    match c.intervalGrid.get? (t + 1) with
    | none =>
      ((List.range c.voices.length).map fun i => intervalGridRow c t i).map
        fun _ => ([] : List Bool)
    | some _ =>
      (List.range c.voices.length).map fun i => pmRow c t i

/-- Scan of one parallel-motion row, reindexed to the voice-pair site it
denotes: entry `k` of row `i` speaks about the pair `(i, i + 1 + k)`. -/
def v1ScanRow (t i : ℕ) (row : List Bool) : List (ℕ × ℕ × ℕ) :=
  ((List.range row.length).map fun k =>
    if row.getD k false then [(t, i, i + 1 + k)] else []).flatten

/-- Scan of one parallel-motion matrix. -/
def v1ScanMatrix (t : ℕ) (m : List (List Bool)) : List (ℕ × ℕ × ℕ) :=
  ((List.range m.length).map fun i => v1ScanRow t i (m.getD i [])).flatten

/-- The violating sites of the historical variant, in scan order, each
reindexed from (row, offset) to the voice pair it denotes. -/
def Composition.v1Violations (c : Composition) : List (ℕ × ℕ × ℕ) :=
  ((List.range c.parallelMotion.length).map fun t =>
    v1ScanMatrix t (c.parallelMotion.getD t [])).flatten

/-- The historical `validate` (src/index.ts): the same length check, then
`parallelMotion.flat(2).some(check => check)` decides failure with a fixed
message.  The unconditional debug dump writes only to the console. -/
def Composition.validateV1 (c : Composition) : Except String Unit :=
  match c.validateLength with
  | Except.error e => Except.error e
  | Except.ok _ =>
    if (c.parallelMotion.flatten.flatten).any (fun b => b) then
      Except.error "Parallel motion detected"
    else Except.ok ()

/-!  Accessors used by the theorem statements. -/

/-- Timeline entry `timeline[t][i][j]` (a hole or an out-of-range read is
`none`). -/
def tlEntry (c : Composition) (t i j : ℕ) : Option ℤ :=
  ((c.timeline.getD t []).getD i []).getD j none

/-- Motion-timeline entry `motionTimeline[t][i][j]` (a hole or an
out-of-range read is `none`). -/
def mtEntry (c : Composition) (t i j : ℕ) : Option Bool :=
  ((c.motionTimeline.getD t []).getD i []).getD j none

/-- Row `i` of the motion-timeline matrix at time `t`. -/
def mtRow (c : Composition) (t i : ℕ) : List (Option Bool) :=
  (c.motionTimeline.getD t []).getD i []

/-- Number of materialized interval values in one timeline matrix. -/
def meaningfulCount (m : List (List (Option ℤ))) : ℕ :=
  (m.map fun row => (row.filterMap id).length).sum

/-!  Basic indexing lemmas for range-indexed lists. -/

lemma getD_range_map {α : Type*} (f : ℕ → α) (n t : ℕ) (d : α) :
    ((List.range n).map f).getD t d = if t < n then f t else d := by
  rw [List.getD_eq_getElem?_getD, List.getElem?_map]
  by_cases h : t < n
  · rw [List.getElem?_range h]; simp [h]
  · rw [List.getElem?_eq_none (by simpa using Nat.le_of_not_lt h)]; simp [h]

lemma get?_range_map {α : Type*} (f : ℕ → α) (n t : ℕ) :
    ((List.range n).map f).get? t = if t < n then some (f t) else none := by
  rw [List.get?_eq_getElem?, List.getElem?_map]
  by_cases h : t < n
  · rw [List.getElem?_range h]; simp [h]
  · rw [List.getElem?_eq_none (by simpa using Nat.le_of_not_lt h)]; simp [h]

lemma getD_map_nil {α β : Type*} (l : List α) (i : ℕ) :
    (l.map fun _ => ([] : List β)).getD i [] = [] := by
  rw [List.getD_eq_getElem?_getD, List.getElem?_map]
  cases h : l[i]? <;> simp

lemma lt_length_of_getD_some {α : Type*} {l : List (Option α)} {j : ℕ} {v : α}
    (h : l.getD j none = some v) : j < l.length := by
  by_contra hc
  rw [List.getD_eq_getElem?_getD, List.getElem?_eq_none (Nat.le_of_not_lt hc)] at h
  simp at h

lemma lt_length_of_getD_true {l : List Bool} {k : ℕ}
    (h : l.getD k false = true) : k < l.length := by
  by_contra hc
  rw [List.getD_eq_getElem?_getD, List.getElem?_eq_none (Nat.le_of_not_lt hc)] at h
  simp at h

lemma lt_length_of_getD_nested {α : Type*} {m : List (List (Option α))}
    {i j : ℕ} {v : α} (h : (m.getD i []).getD j none = some v) :
    i < m.length := by
  by_contra hc
  rw [List.getD_eq_getElem?_getD (m) i,
    List.getElem?_eq_none (Nat.le_of_not_lt hc)] at h
  simp at h

lemma lt_length_of_getD_nested_bool {m : List (List Bool)} {i k : ℕ}
    (h : (m.getD i []).getD k false = true) : i < m.length := by
  by_contra hc
  rw [List.getD_eq_getElem?_getD (m) i,
    List.getElem?_eq_none (Nat.le_of_not_lt hc)] at h
  simp at h

lemma lt_length_of_getD_nested2 {α : Type*}
    {m : List (List (List (Option α)))} {t i j : ℕ} {v : α}
    (h : ((m.getD t []).getD i []).getD j none = some v) : t < m.length := by
  by_contra hc
  rw [List.getD_eq_getElem?_getD (m) t,
    List.getElem?_eq_none (Nat.le_of_not_lt hc)] at h
  simp at h

lemma lt_length_of_getD_nested2_bool {m : List (List (List Bool))}
    {t i k : ℕ} (h : ((m.getD t []).getD i []).getD k false = true) :
    t < m.length := by
  by_contra hc
  rw [List.getD_eq_getElem?_getD (m) t,
    List.getElem?_eq_none (Nat.le_of_not_lt hc)] at h
  simp at h

/-!  Length lemmas. -/

lemma timeline_length (c : Composition) : c.timeline.length = c.length := by
  simp [Composition.timeline]

lemma timelineMatrix_length (c : Composition) (t : ℕ) :
    (timelineMatrix c t).length = c.voices.length := by
  simp [timelineMatrix]

lemma motionTimeline_length (c : Composition) :
    c.motionTimeline.length = c.length := by
  simp [Composition.motionTimeline]

lemma intervalGrid_length (c : Composition) :
    c.intervalGrid.length = c.length := by
  simp [Composition.intervalGrid]

lemma parallelMotion_length (c : Composition) :
    c.parallelMotion.length = c.length := by
  simp [Composition.parallelMotion]

lemma timelineRow_length (c : Composition) (t i : ℕ) :
    (timelineRow c t i).length =
      if i + 1 < c.voices.length then c.voices.length else 0 := by
  unfold timelineRow; split <;> simp

lemma intervalGridRow_length (c : Composition) (t i : ℕ) :
    (intervalGridRow c t i).length = c.voices.length - (i + 1) := by
  simp [intervalGridRow]

/-!  Accessor lemmas. -/

lemma timeline_getD (c : Composition) {t : ℕ} (ht : t < c.length) :
    c.timeline.getD t [] = timelineMatrix c t := by
  rw [Composition.timeline, getD_range_map, if_pos ht]

lemma timeline_get? (c : Composition) (t : ℕ) :
    c.timeline.get? t =
      if t < c.length then some (timelineMatrix c t) else none := by
  rw [Composition.timeline, get?_range_map]

lemma timelineMatrix_getD (c : Composition) {t i : ℕ}
    (hi : i < c.voices.length) :
    (timelineMatrix c t).getD i [] = timelineRow c t i := by
  rw [timelineMatrix, getD_range_map, if_pos hi]

lemma timelineMatrix_get? (c : Composition) (t i : ℕ) :
    (timelineMatrix c t).get? i =
      if i < c.voices.length then some (timelineRow c t i) else none := by
  rw [timelineMatrix, get?_range_map]

lemma timelineRow_getD_lt (c : Composition) {t i j : ℕ}
    (hij : i < j) (hj : j < c.voices.length) :
    (timelineRow c t i).getD j none =
      some (interval (noteAt c i t) (noteAt c j t)) := by
  have h1 : i + 1 < c.voices.length :=
    Nat.lt_of_le_of_lt (Nat.succ_le_of_lt hij) hj
  rw [timelineRow, if_pos h1, getD_range_map, if_pos hj, if_pos hij]

lemma timelineRow_getD_le (c : Composition) {t i j : ℕ} (hij : j ≤ i) :
    (timelineRow c t i).getD j none = none := by
  unfold timelineRow; split
  · rw [getD_range_map]
    split
    · rw [if_neg (Nat.not_lt.mpr hij)]
    · rfl
  · rfl

/-!  Arithmetic of the interval function. -/

lemma tmod_twelve_bounds (x : ℤ) : -12 < x.tmod 12 ∧ x.tmod 12 < 12 := by
  match x with
  | Int.ofNat m =>
      show -12 < Int.ofNat (m % 12) ∧ Int.ofNat (m % 12) < 12
      rw [Int.ofNat_eq_natCast]; omega
  | Int.negSucc m =>
      show -12 < -Int.ofNat (m.succ % 12) ∧ -Int.ofNat (m.succ % 12) < 12
      rw [Int.ofNat_eq_natCast]; omega

/-- The double-remainder expression of the source computes the true
mathematical (Euclidean) residue of the pitch difference. -/
lemma interval_eq_emod (a b : ℤ) : interval a b = (a - b) % 12 := by
  unfold interval
  obtain ⟨h1, _⟩ := tmod_twelve_bounds (a - b)
  rw [Int.tmod_eq_emod (by omega) (by norm_num), Int.tmod_def (a - b) 12]
  omega

/-!  Motion-row accessor lemmas. -/

lemma motionRow_eq_nil (c : Composition) {t i : ℕ}
    (h : ¬ i + 1 < c.voices.length) : motionRow c t i = [] := by
  unfold motionRow
  rw [timelineMatrix_get?]
  by_cases hi : i < c.voices.length
  · rw [if_pos hi, timelineMatrix_getD c hi]
    have hlen : (timelineRow c t i).length = 0 := by
      rw [timelineRow_length, if_neg h]
    dsimp only
    rw [hlen]
    rfl
  · rw [if_neg hi]

lemma motionRow_getD (c : Composition) {t i j : ℕ}
    (hij : i < j) (hj : j < c.voices.length) :
    (motionRow c t i).getD j none =
      some (decide (interval (noteAt c i t) (noteAt c j t) ∈ bannedIntervals)
        && decide (interval (noteAt c i t) (noteAt c j t) =
             interval (noteAt c i (t + 1)) (noteAt c j (t + 1)))) := by
  have hi : i < c.voices.length := Nat.lt_trans hij hj
  have h1 : i + 1 < c.voices.length :=
    Nat.lt_of_le_of_lt (Nat.succ_le_of_lt hij) hj
  unfold motionRow
  rw [timelineMatrix_get?, if_pos hi, timelineMatrix_getD c hi]
  have hlen : (timelineRow c t i).length = c.voices.length := by
    rw [timelineRow_length, if_pos h1]
  dsimp only
  rw [hlen, getD_range_map, if_pos hj, if_pos (Nat.succ_le_of_lt hij),
    timelineRow_getD_lt c hij hj, timelineRow_getD_lt c hij hj]

lemma motionRow_getD_le (c : Composition) {t i j : ℕ} (hij : j ≤ i) :
    (motionRow c t i).getD j none = none := by
  unfold motionRow
  rw [timelineMatrix_get?]
  by_cases hi : i < c.voices.length
  · rw [if_pos hi, timelineMatrix_getD c hi, getD_range_map]
    split
    · rw [if_neg (by omega)]
    · rfl
  · rw [if_neg hi]; rfl

lemma motionTimeline_getD_last (c : Composition) {t : ℕ}
    (ht : t < c.length) (ht2 : ¬ t + 1 < c.length) :
    c.motionTimeline.getD t [] = (timelineMatrix c t).map fun _ => [] := by
  rw [Composition.motionTimeline, getD_range_map, if_pos ht, timeline_get?,
    if_neg ht2]

lemma motionTimeline_getD_mid (c : Composition) {t : ℕ}
    (ht2 : t + 1 < c.length) :
    c.motionTimeline.getD t [] =
      (List.range (timelineMatrix c t).length).map fun i => motionRow c t i := by
  rw [Composition.motionTimeline, getD_range_map, if_pos (by omega),
    timeline_get?, if_pos ht2]

/-!  Gauss summation for the timeline shape. -/

lemma filterMap_ite_length (f : ℕ → ℤ) (i : ℕ) : ∀ n : ℕ,
    (((List.range n).map fun j =>
       if i < j then some (f j) else none).filterMap id).length = n - (i + 1)
  | 0 => by simp
  | Nat.succ k => by
      rw [List.range_succ, List.map_append, List.filterMap_append,
        List.length_append, filterMap_ite_length f i k]
      by_cases h : i < k
      · simp [h]; omega
      · simp [h]; omega

lemma list_range_sum_mul_two (n : ℕ) : (List.range n).sum * 2 = n * (n - 1) := by
  induction n with
  | zero => rfl
  | succ k ih =>
      rw [List.range_succ, List.sum_append]
      cases k with
      | zero => rfl
      | succ m =>
          simp only [List.sum_cons, List.sum_nil, add_zero,
            Nat.succ_sub_one] at ih ⊢
          nlinarith [ih]

lemma map_sub_range_sum : ∀ V : ℕ,
    ((List.range V).map fun i => V - (i + 1)).sum = (List.range V).sum
  | 0 => rfl
  | Nat.succ k => by
      conv_lhs => rw [List.range_succ_eq_map]
      conv_rhs => rw [List.range_succ]
      rw [List.map_cons, List.sum_cons, List.map_map]
      have h1 : ((List.range k).map ((fun i => k.succ - (i + 1)) ∘ Nat.succ))
          = (List.range k).map fun i => k - (i + 1) :=
        List.map_congr_left fun a _ => by
          simp only [Function.comp_apply]; omega
      rw [h1, map_sub_range_sum k, List.sum_append]
      simp only [List.sum_cons, List.sum_nil, add_zero]
      omega

lemma meaningfulCount_timelineMatrix (c : Composition) (t : ℕ) :
    meaningfulCount (timelineMatrix c t) =
      c.voices.length * (c.voices.length - 1) / 2 := by
  unfold meaningfulCount timelineMatrix
  rw [List.map_map]
  have hrow : ∀ i : ℕ,
      ((fun row => (row.filterMap id).length) ∘ timelineRow c t) i
        = c.voices.length - (i + 1) := by
    intro i
    show ((timelineRow c t i).filterMap id).length = c.voices.length - (i + 1)
    unfold timelineRow; split
    · exact filterMap_ite_length _ i _
    · simp; omega
  rw [List.map_congr_left fun i _ => hrow i, map_sub_range_sum]
  have := list_range_sum_mul_two c.voices.length
  omega

/-!  Membership characterization of the violation scans. -/

lemma mem_scanRow {t i : ℕ} {row : List (Option Bool)} {p : ℕ × ℕ × ℕ} :
    p ∈ scanRow t i row ↔
      p.1 = t ∧ p.2.1 = i ∧ row.getD p.2.2 none = some true := by
  obtain ⟨a, b, j⟩ := p
  unfold scanRow
  rw [List.mem_flatten]
  constructor
  · rintro ⟨l, hl, hpl⟩
    rw [List.mem_map] at hl
    obtain ⟨j', _, rfl⟩ := hl
    split at hpl
    case isTrue h =>
      rw [List.mem_singleton, Prod.mk.injEq, Prod.mk.injEq] at hpl
      obtain ⟨rfl, rfl, rfl⟩ := hpl
      exact ⟨rfl, rfl, h⟩
    case isFalse => simp at hpl
  · rintro ⟨rfl, rfl, h⟩
    refine ⟨[(a, b, j)], ?_, List.mem_singleton_self _⟩
    rw [List.mem_map]
    exact ⟨j, List.mem_range.mpr (lt_length_of_getD_some h), by rw [if_pos h]⟩

lemma mem_scanMatrix {t : ℕ} {m : List (List (Option Bool))}
    {p : ℕ × ℕ × ℕ} :
    p ∈ scanMatrix t m ↔
      p.1 = t ∧ (m.getD p.2.1 []).getD p.2.2 none = some true := by
  obtain ⟨a, b, j⟩ := p
  unfold scanMatrix
  rw [List.mem_flatten]
  constructor
  · rintro ⟨l, hl, hpl⟩
    rw [List.mem_map] at hl
    obtain ⟨i', _, rfl⟩ := hl
    rw [mem_scanRow] at hpl
    obtain ⟨rfl, rfl, h⟩ := hpl
    exact ⟨rfl, h⟩
  · rintro ⟨rfl, h⟩
    refine ⟨scanRow a b (m.getD b []), ?_, mem_scanRow.mpr ⟨rfl, rfl, h⟩⟩
    rw [List.mem_map]
    exact ⟨b, List.mem_range.mpr (lt_length_of_getD_nested h), rfl⟩

lemma mem_violations {c : Composition} {p : ℕ × ℕ × ℕ} :
    p ∈ c.violations ↔ mtEntry c p.1 p.2.1 p.2.2 = some true := by
  obtain ⟨t, i, j⟩ := p
  unfold Composition.violations mtEntry
  rw [List.mem_flatten]
  constructor
  · rintro ⟨l, hl, hpl⟩
    rw [List.mem_map] at hl
    obtain ⟨t', _, rfl⟩ := hl
    rw [mem_scanMatrix] at hpl
    obtain ⟨rfl, h⟩ := hpl
    exact h
  · intro h
    refine ⟨scanMatrix t (c.motionTimeline.getD t []), ?_,
      mem_scanMatrix.mpr ⟨rfl, h⟩⟩
    rw [List.mem_map]
    exact ⟨t, List.mem_range.mpr (lt_length_of_getD_nested2 h), rfl⟩

/-!  Accessor lemmas for the historical variant. -/

lemma intervalGrid_get? (c : Composition) (t : ℕ) :
    c.intervalGrid.get? t =
      if t < c.length then
        some ((List.range c.voices.length).map fun i => intervalGridRow c t i)
      else none := by
  rw [Composition.intervalGrid, get?_range_map]

lemma intervalGridRow_getD (c : Composition) {t i k : ℕ}
    (hk : k < c.voices.length - (i + 1)) :
    (intervalGridRow c t i).getD k 0 =
      interval (noteAt c i t) (noteAt c (i + 1 + k) t) := by
  rw [intervalGridRow, getD_range_map, if_pos hk]

lemma intervalGridRow_get? (c : Composition) (t i k : ℕ) :
    (intervalGridRow c t i).get? k =
      if k < c.voices.length - (i + 1) then
        some (interval (noteAt c i t) (noteAt c (i + 1 + k) t))
      else none := by
  rw [intervalGridRow, get?_range_map]

lemma pmRow_eq_nil (c : Composition) {t i : ℕ}
    (h : ¬ i + 1 < c.voices.length) : pmRow c t i = [] := by
  unfold pmRow
  rw [get?_range_map]
  by_cases hi : i < c.voices.length
  · rw [if_pos hi]
    have hlen : (intervalGridRow c t i).length = 0 := by
      rw [intervalGridRow_length]; omega
    dsimp only
    rw [hlen]
    rfl
  · rw [if_neg hi]

lemma pmRow_getD (c : Composition) {t i k : ℕ} (hi : i < c.voices.length)
    (hk : k < c.voices.length - (i + 1)) :
    (pmRow c t i).getD k false =
      (if interval (noteAt c i t) (noteAt c (i + 1 + k) t) ∈ bannedIntervals
       then decide (interval (noteAt c i (t + 1)) (noteAt c (i + 1 + k) (t + 1))
              = interval (noteAt c i t) (noteAt c (i + 1 + k) t))
       else false) := by
  unfold pmRow
  rw [get?_range_map, if_pos hi]
  dsimp only
  rw [intervalGridRow_length, getD_range_map, if_pos hk,
    intervalGridRow_getD c hk, intervalGridRow_get?, if_pos hk]
  split
  · exact decide_eq_decide.mpr Option.some_inj
  · rfl

lemma parallelMotion_getD_last (c : Composition) {t : ℕ}
    (ht : t < c.length) (ht2 : ¬ t + 1 < c.length) :
    c.parallelMotion.getD t [] =
      ((List.range c.voices.length).map fun i => intervalGridRow c t i).map
        fun _ => [] := by
  rw [Composition.parallelMotion, getD_range_map, if_pos ht, intervalGrid_get?,
    if_neg ht2]

lemma parallelMotion_getD_mid (c : Composition) {t : ℕ}
    (ht2 : t + 1 < c.length) :
    c.parallelMotion.getD t [] =
      (List.range c.voices.length).map fun i => pmRow c t i := by
  rw [Composition.parallelMotion, getD_range_map, if_pos (by omega),
    intervalGrid_get?, if_pos ht2]

/-!  Correspondence between the two variants' scans. -/

lemma flat_shift {α : Type*} (n m : ℕ) (g : ℕ → List α)
    (h : ∀ j < m, g j = []) :
    ((List.range n).map g).flatten =
      ((List.range (n - m)).map fun k => g (m + k)).flatten := by
  rcases le_or_lt m n with hle | hlt
  · conv_lhs => rw [show n = m + (n - m) by omega]
    rw [List.range_add, List.map_append, List.flatten_append, List.map_map]
    have h1 : ((List.range m).map g).flatten = [] := by
      rw [List.flatten_eq_nil_iff]
      intro l hl
      rw [List.mem_map] at hl
      obtain ⟨j, hj, rfl⟩ := hl
      exact h j (List.mem_range.mp hj)
    rw [h1, List.nil_append]
    rfl
  · have h1 : n - m = 0 := by omega
    rw [h1]
    simp only [List.range_zero, List.map_nil, List.flatten_nil]
    rw [List.flatten_eq_nil_iff]
    intro l hl
    rw [List.mem_map] at hl
    obtain ⟨j, hj, rfl⟩ := hl
    exact h j (by have := List.mem_range.mp hj; omega)

lemma scanRow_nil (t i : ℕ) : scanRow t i [] = [] := rfl

lemma v1ScanRow_nil (t i : ℕ) : v1ScanRow t i [] = [] := rfl

lemma scanRow_motionRow_eq (c : Composition) (t i : ℕ) :
    scanRow t i (motionRow c t i) = v1ScanRow t i (pmRow c t i) := by
  by_cases h1 : i + 1 < c.voices.length
  · have hi : i < c.voices.length := by omega
    have hlen : (motionRow c t i).length = c.voices.length := by
      unfold motionRow
      rw [timelineMatrix_get?, if_pos hi, timelineMatrix_getD c hi]
      dsimp only
      rw [List.length_map, List.length_range, timelineRow_length, if_pos h1]
    have hlen2 : (pmRow c t i).length = c.voices.length - (i + 1) := by
      unfold pmRow
      rw [get?_range_map, if_pos hi]
      dsimp only
      rw [List.length_map, List.length_range, intervalGridRow_length]
    unfold scanRow v1ScanRow
    rw [hlen, hlen2]
    rw [flat_shift c.voices.length (i + 1)
      (fun j => if (motionRow c t i).getD j none = some true
                then [(t, i, j)] else [])
      (fun j hj => by
        dsimp only
        rw [motionRow_getD_le c (by omega)]
        simp)]
    refine congrArg List.flatten (List.map_congr_left fun k hk => ?_)
    have hk' : k < c.voices.length - (i + 1) := List.mem_range.mp hk
    have hij : i < i + 1 + k := by omega
    have hj : i + 1 + k < c.voices.length := by omega
    rw [motionRow_getD c hij hj, pmRow_getD c hi hk']
    by_cases hb : interval (noteAt c i t) (noteAt c (i + 1 + k) t)
        ∈ bannedIntervals
    · by_cases he : interval (noteAt c i t) (noteAt c (i + 1 + k) t)
          = interval (noteAt c i (t + 1)) (noteAt c (i + 1 + k) (t + 1))
      · simp [hb, he]
      · have he' : ¬ interval (noteAt c i (t + 1)) (noteAt c (i + 1 + k) (t + 1))
            = interval (noteAt c i t) (noteAt c (i + 1 + k) t) :=
          fun h => he h.symm
        simp [hb, he, he']
    · simp [hb]
  · rw [motionRow_eq_nil c h1, pmRow_eq_nil c h1, scanRow_nil, v1ScanRow_nil]

lemma scanMatrix_eq_v1 (c : Composition) {t : ℕ} (ht : t < c.length) :
    scanMatrix t (c.motionTimeline.getD t []) =
      v1ScanMatrix t (c.parallelMotion.getD t []) := by
  by_cases ht2 : t + 1 < c.length
  · rw [motionTimeline_getD_mid c ht2, parallelMotion_getD_mid c ht2]
    unfold scanMatrix v1ScanMatrix
    rw [timelineMatrix_length]
    simp only [List.length_map, List.length_range]
    refine congrArg List.flatten (List.map_congr_left fun i hi => ?_)
    have hi' : i < c.voices.length := List.mem_range.mp hi
    rw [getD_range_map, if_pos hi', getD_range_map, if_pos hi']
    exact scanRow_motionRow_eq c t i
  · rw [motionTimeline_getD_last c ht ht2, parallelMotion_getD_last c ht ht2]
    unfold scanMatrix v1ScanMatrix
    simp only [List.length_map, List.length_range, timelineMatrix_length]
    refine congrArg List.flatten (List.map_congr_left fun i _ => ?_)
    rw [getD_map_nil, getD_map_nil, scanRow_nil, v1ScanRow_nil]

/-!  Detection flag of the historical variant. -/

lemma mem_v1ScanRow {t i : ℕ} {row : List Bool} {p : ℕ × ℕ × ℕ} :
    p ∈ v1ScanRow t i row ↔
      ∃ k, p = (t, i, i + 1 + k) ∧ row.getD k false = true := by
  unfold v1ScanRow
  rw [List.mem_flatten]
  constructor
  · rintro ⟨l, hl, hpl⟩
    rw [List.mem_map] at hl
    obtain ⟨k, _, rfl⟩ := hl
    split at hpl
    case isTrue h =>
      rw [List.mem_singleton] at hpl
      exact ⟨k, hpl, h⟩
    case isFalse => simp at hpl
  · rintro ⟨k, rfl, h⟩
    refine ⟨[(t, i, i + 1 + k)], ?_, List.mem_singleton_self _⟩
    rw [List.mem_map]
    exact ⟨k, List.mem_range.mpr (lt_length_of_getD_true h), by rw [if_pos h]⟩

lemma mem_v1ScanMatrix {t : ℕ} {m : List (List Bool)} {p : ℕ × ℕ × ℕ} :
    p ∈ v1ScanMatrix t m ↔
      ∃ i k, p = (t, i, i + 1 + k) ∧ (m.getD i []).getD k false = true := by
  unfold v1ScanMatrix
  rw [List.mem_flatten]
  constructor
  · rintro ⟨l, hl, hpl⟩
    rw [List.mem_map] at hl
    obtain ⟨i, _, rfl⟩ := hl
    rw [mem_v1ScanRow] at hpl
    obtain ⟨k, rfl, h⟩ := hpl
    exact ⟨i, k, rfl, h⟩
  · rintro ⟨i, k, rfl, h⟩
    refine ⟨v1ScanRow t i (m.getD i []), ?_,
      mem_v1ScanRow.mpr ⟨k, rfl, h⟩⟩
    rw [List.mem_map]
    exact ⟨i, List.mem_range.mpr (lt_length_of_getD_nested_bool h), rfl⟩

lemma mem_v1Violations {c : Composition} {p : ℕ × ℕ × ℕ} :
    p ∈ c.v1Violations ↔
      ∃ t i k, p = (t, i, i + 1 + k) ∧
        ((c.parallelMotion.getD t []).getD i []).getD k false = true := by
  unfold Composition.v1Violations
  rw [List.mem_flatten]
  constructor
  · rintro ⟨l, hl, hpl⟩
    rw [List.mem_map] at hl
    obtain ⟨t, _, rfl⟩ := hl
    rw [mem_v1ScanMatrix] at hpl
    obtain ⟨i, k, rfl, h⟩ := hpl
    exact ⟨t, i, k, rfl, h⟩
  · rintro ⟨t, i, k, rfl, h⟩
    refine ⟨v1ScanMatrix t (c.parallelMotion.getD t []), ?_,
      mem_v1ScanMatrix.mpr ⟨i, k, rfl, h⟩⟩
    rw [List.mem_map]
    exact ⟨t, List.mem_range.mpr (lt_length_of_getD_nested2_bool h), rfl⟩

lemma any_flatten_flatten (L : List (List (List Bool))) :
    (L.flatten.flatten).any (fun b => b) = true ↔
      ∃ t i k, ((L.getD t []).getD i []).getD k false = true := by
  rw [List.any_eq_true]
  constructor
  · rintro ⟨b, hb, hbt⟩
    subst hbt
    rw [List.mem_flatten] at hb
    obtain ⟨row, hrow, hbrow⟩ := hb
    rw [List.mem_flatten] at hrow
    obtain ⟨m, hm, hrowm⟩ := hrow
    rw [List.mem_iff_getElem] at hm hrowm hbrow
    obtain ⟨t, ht, rfl⟩ := hm
    obtain ⟨i, hi, rfl⟩ := hrowm
    obtain ⟨k, hk, hbk⟩ := hbrow
    refine ⟨t, i, k, ?_⟩
    rw [List.getD_eq_getElem L [] ht, List.getD_eq_getElem _ [] hi,
      List.getD_eq_getElem _ false hk]
    exact hbk
  · rintro ⟨t, i, k, h⟩
    have ht : t < L.length := lt_length_of_getD_nested2_bool h
    have hi : i < (L.getD t []).length := lt_length_of_getD_nested_bool h
    have hk : k < ((L.getD t []).getD i []).length := lt_length_of_getD_true h
    refine ⟨true, ?_, rfl⟩
    rw [List.mem_flatten]
    refine ⟨(L.getD t []).getD i [], ?_, ?_⟩
    · rw [List.mem_flatten]
      refine ⟨L.getD t [], ?_, ?_⟩
      · rw [List.getD_eq_getElem L [] ht]
        exact List.getElem_mem ht
      · rw [List.getD_eq_getElem _ [] hi]
        exact List.getElem_mem hi
    · rw [← h, List.getD_eq_getElem _ false hk]
      exact List.getElem_mem hk

lemma v1Violations_ne_nil_iff (c : Composition) :
    c.v1Violations ≠ [] ↔
      ∃ t i k, ((c.parallelMotion.getD t []).getD i []).getD k false = true := by
  constructor
  · intro h
    obtain ⟨p, hp⟩ := List.exists_mem_of_ne_nil _ h
    obtain ⟨t, i, k, _, hv⟩ := mem_v1Violations.mp hp
    exact ⟨t, i, k, hv⟩
  · rintro ⟨t, i, k, h⟩
    intro hnil
    have : (t, i, i + 1 + k) ∈ c.v1Violations :=
      mem_v1Violations.mpr ⟨t, i, k, rfl, h⟩
    rw [hnil] at this
    simp at this

lemma detected_iff (c : Composition) :
    ((c.parallelMotion.flatten.flatten).any (fun b => b) = true) ↔
      c.v1Violations ≠ [] := by
  rw [any_flatten_flatten, v1Violations_ne_nil_iff]

lemma getD_of_len_le {α : Type*} {l : List α} {n : ℕ}
    (h : l.length ≤ n) (d : α) : l.getD n d = d := by
  rw [List.getD_eq_getElem?_getD, List.getElem?_eq_none h]
  rfl

/-!  The claims. -/

/-- C2: for all integers a and b (including negative differences),
interval(a, b) returns ((a - b) mod 12 + 12) mod 12 under true mathematical
modulo, so the result always lies in [0, 11]; the function is pure and total
over the integers with no error conditions (it is a total Lean function). -/
theorem C2_interval_true_modulo (a b : ℤ) :
    interval a b = ((a - b) % 12 + 12) % 12 ∧
      0 ≤ interval a b ∧ interval a b < 12 := by
  refine ⟨?_, ?_, ?_⟩ <;> rw [interval_eq_emod] <;> omega

/-- C6 counterexample: the interval function is not commutative; at the
spec's own example pair a = 62, b = 60 the two orders give 2 and 10. -/
theorem C6_cex_interval_not_commutative :
    interval 62 60 = 2 ∧ interval 60 62 = 10 ∧
      interval 62 60 ≠ interval 60 62 := by
  decide

/-- C6 (amended): interval is antisymmetric rather than commutative:
interval(a, b) = (12 - interval(b, a)) mod 12 for all integers a and b, so
the two orders agree exactly when the interval is 0 or 6. -/
theorem C6_interval_antisymmetry (a b : ℤ) :
    interval a b = (12 - interval b a) % 12 := by
  rw [interval_eq_emod, interval_eq_emod]
  omega

/-- C5: when the loop flag is true, voice processing appends each voice's
first pitch to the end of its own sequence, so for every voice k (with a
nonempty note list, the case in which the source's appended read
notes[0] is an actual pitch), voices[k][L-1] = voices[k][0] where L is the
post-augmentation length. -/
theorem C5_loop_wraparound (midis : List (List ℤ)) (k : ℕ)
    (hk : k < midis.length) (hne : midis.getD k [] ≠ []) :
    ((processMidis midis true).getD k []).getD
        (((processMidis midis true).getD k []).length - 1) 0 =
      ((processMidis midis true).getD k []).getD 0 0 := by
  have h1 : (processMidis midis true).getD k [] =
      midis.getD k [] ++ [(midis.getD k []).headI] := by
    unfold processMidis
    rw [List.getD_eq_getElem?_getD, List.getElem?_map,
      List.getElem?_eq_getElem hk, List.getD_eq_getElem _ _ hk]
    rfl
  rw [h1]
  have h2 : (midis.getD k [] ++ [(midis.getD k []).headI]).length - 1 =
      (midis.getD k []).length := by simp
  rw [h2]
  have h3 : (midis.getD k [] ++ [(midis.getD k []).headI]).getD
      (midis.getD k []).length 0 = (midis.getD k []).headI := by
    rw [List.getD_eq_getElem?_getD, List.getElem?_append_right (le_refl _)]
    simp
  rw [h3]
  cases hv : midis.getD k [] with
  | nil => exact absurd hv hne
  | cons a as => simp

/-- C9: the constructor reads voices[0].length, so construction from an
empty file list faults (no composition is produced) rather than yielding a
length-0 composition; for a nonempty input list the index-0 access is safe
and construction succeeds, recording the processed voices and the first
processed voice's length. -/
theorem C9_constructor_first_voice :
    Composition.mk? [] = none ∧
    ∀ noteLists : List (List ℤ), noteLists ≠ [] →
      ∃ c : Composition, Composition.mk? noteLists = some c ∧
        c.voices = processMidis noteLists true ∧
        c.length = ((processMidis noteLists true).headI).length := by
  refine ⟨rfl, ?_⟩
  intro noteLists h
  match noteLists, h with
  | v :: rest, _ =>
    exact ⟨⟨processMidis (v :: rest) true, (v ++ [v.headI]).length⟩,
      rfl, rfl, rfl⟩

/-- C9 witness: construction succeeds on the one-voice input [[60]]. -/
theorem C9_witness :
    ∃ c : Composition, Composition.mk? [[(60 : ℤ)]] = some c ∧
      c.voices = processMidis [[(60 : ℤ)]] true ∧
      c.length = ((processMidis [[(60 : ℤ)]] true).headI).length :=
  C9_constructor_first_voice.2 [[(60 : ℤ)]] (by decide)

/-- C7: for V voices of length L the timeline has exactly L entries, each
entry materializes exactly V(V-1)/2 interval values (one per pair i < j),
and no entry exists for a self-pair i = j. -/
theorem C7_timeline_shape (c : Composition) :
    c.timeline.length = c.length ∧
    (∀ t, t < c.length →
      meaningfulCount (c.timeline.getD t []) =
        c.voices.length * (c.voices.length - 1) / 2) ∧
    (∀ t i, tlEntry c t i i = none) := by
  refine ⟨timeline_length c, ?_, ?_⟩
  · intro t ht
    rw [timeline_getD c ht, meaningfulCount_timelineMatrix]
  · intro t i
    unfold tlEntry
    by_cases ht : t < c.length
    · rw [timeline_getD c ht]
      by_cases hi : i < c.voices.length
      · rw [timelineMatrix_getD c hi, timelineRow_getD_le c (le_refl i)]
      · have hmid : (timelineMatrix c t).getD i [] = [] :=
          getD_of_len_le (by rw [timelineMatrix_length]; omega) []
        rw [hmid]
        rfl
    · have houter : c.timeline.getD t [] = [] :=
        getD_of_len_le (by rw [timeline_length]; omega) []
      rw [houter]
      rfl

/-- C7 witness: a concrete two-voice composition has 2·1/2 = 1 materialized
interval in its first timeline entry. -/
theorem C7_witness :
    meaningfulCount
        ((⟨[[60], [62]], 1⟩ : Composition).timeline.getD 0 []) =
      (⟨[[60], [62]], 1⟩ : Composition).voices.length *
        ((⟨[[60], [62]], 1⟩ : Composition).voices.length - 1) / 2 :=
  (C7_timeline_shape ⟨[[60], [62]], 1⟩).2.1 0 (by decide)

/-- C5 witness: on the input [[60, 64]] the processed voice ends with its
first pitch. -/
theorem C5_witness :
    ((processMidis [[(60 : ℤ), 64]] true).getD 0 []).getD
        (((processMidis [[(60 : ℤ), 64]] true).getD 0 []).length - 1) 0 =
      ((processMidis [[(60 : ℤ), 64]] true).getD 0 []).getD 0 0 :=
  C5_loop_wraparound [[(60 : ℤ), 64]] 0 (by decide) (by decide)

/-- C1: for a pair i < j of voice indices and a non-final time t, the
motion-timeline entry (t, i, j) is true exactly when the timeline value at
(t, i, j) is banned and equals the timeline value at (t+1, i, j); at the
final time step every row of the motion matrix is empty (so every entry
reads as absent, not as a fault), and the motion timeline is defined at
every index below its length, which equals the composition length. -/
theorem C1_motion_detector (c : Composition) (t i j : ℕ)
    (hij : i < j) (hj : j < c.voices.length) :
    (t + 1 < c.length →
      (mtEntry c t i j = some true ↔
        (∃ v ∈ bannedIntervals, tlEntry c t i j = some v) ∧
          tlEntry c t i j = tlEntry c (t + 1) i j)) ∧
    (0 < c.length → ∀ i', mtRow c (c.length - 1) i' = []) ∧
    c.motionTimeline.length = c.length := by
  have hi : i < c.voices.length := Nat.lt_trans hij hj
  refine ⟨?_, ?_, motionTimeline_length c⟩
  · intro ht2
    have ht : t < c.length := by omega
    unfold mtEntry tlEntry
    rw [motionTimeline_getD_mid c ht2, timelineMatrix_length, getD_range_map,
      if_pos hi, motionRow_getD c hij hj, timeline_getD c ht,
      timeline_getD c ht2, timelineMatrix_getD c hi, timelineMatrix_getD c hi,
      timelineRow_getD_lt c hij hj, timelineRow_getD_lt c hij hj]
    simp only [Option.some.injEq, Bool.and_eq_true, decide_eq_true_eq]
    constructor
    · rintro ⟨hb, he⟩
      exact ⟨⟨_, hb, rfl⟩, by rw [he]⟩
    · rintro ⟨⟨v, hv, hev⟩, he⟩
      subst hev
      exact ⟨hv, he⟩
  · intro hL i'
    unfold mtRow
    have ht : c.length - 1 < c.length := by omega
    have ht2 : ¬ (c.length - 1) + 1 < c.length := by omega
    rw [motionTimeline_getD_last c ht ht2, getD_map_nil]

/-- C1 witness: in a concrete two-voice composition holding a perfect fifth
across times 0 and 1, the entry (0, 0, 1) is true and the final row is
empty. -/
theorem C1_witness :
    mtEntry ⟨[[60, 62, 60], [67, 69, 67]], 3⟩ 0 0 1 = some true ∧
    mtRow ⟨[[60, 62, 60], [67, 69, 67]], 3⟩ 2 0 = [] := by
  have h := C1_motion_detector ⟨[[60, 62, 60], [67, 69, 67]], 3⟩ 0 0 1
    (by decide) (by decide)
  exact ⟨(h.1 (by decide)).mpr (by decide), h.2.1 (by decide) 0⟩

/-- C3 counterexample: the length error of the source carries no per-voice
detail — two compositions with different expected lengths and different
mismatching (voice index, actual length) lists raise the very same error
value, the constant message, so the error cannot carry that data. -/
theorem C3_cex_error_without_detail :
    Composition.validateLength ⟨[[60], [60, 62]], 1⟩ =
        Composition.validateLength ⟨[[60, 62], [60]], 2⟩ ∧
    Composition.validateLength ⟨[[60], [60, 62]], 1⟩ =
        Except.error "Voices are not the same length" ∧
    Composition.mismatches ⟨[[60], [60, 62]], 1⟩ = [(1, 2)] ∧
    Composition.mismatches ⟨[[60, 62], [60]], 2⟩ = [(1, 1)] ∧
    (⟨[[60], [60, 62]], 1⟩ : Composition).length ≠
        (⟨[[60, 62], [60]], 2⟩ : Composition).length :=
  ⟨rfl, rfl, by decide, by decide, by decide⟩

/-- C3 (amended): validateLength raises an error exactly when some voice's
length differs from composition.length; the raised error is the fixed
message "Voices are not the same length", with no structured detail; and
validate runs the length check before motion detection, so a length error
short-circuits validate (the motion scan's result never enters the
outcome). -/
theorem C3_validateLength_first (c : Composition) :
    ((c.validateLength = Except.error "Voices are not the same length") ↔
      ∃ v ∈ c.voices, v.length ≠ c.length) ∧
    ((c.validateLength = Except.ok ()) ↔
      ∀ v ∈ c.voices, v.length = c.length) ∧
    (∀ e, c.validateLength = Except.error e →
      c.validate = Except.error e) ∧
    (c.validateLength = Except.ok () → c.validate = c.validateMotion) := by
  have hany : (c.voices.any fun voice => voice.length ≠ c.length) = true ↔
      ∃ v ∈ c.voices, v.length ≠ c.length := by
    rw [List.any_eq_true]
    simp only [decide_eq_true_eq]
  by_cases hcond : (c.voices.any fun voice => voice.length ≠ c.length) = true
  · have hVL : c.validateLength =
        Except.error "Voices are not the same length" := by
      unfold Composition.validateLength
      rw [if_pos hcond]
    obtain ⟨v0, hv0, hne0⟩ := hany.mp hcond
    refine ⟨⟨fun _ => hany.mp hcond, fun _ => hVL⟩, ?_, ?_, ?_⟩
    · constructor
      · intro h
        rw [hVL] at h
        exact absurd h (by simp)
      · intro hall
        exact absurd (hall v0 hv0) hne0
    · intro e he
      unfold Composition.validate
      rw [he]
    · intro h
      rw [hVL] at h
      exact absurd h (by simp)
  · have hVL : c.validateLength = Except.ok () := by
      unfold Composition.validateLength
      rw [if_neg hcond]
    refine ⟨?_, ⟨fun _ => ?_, fun _ => hVL⟩, ?_, ?_⟩
    · constructor
      · intro h
        rw [hVL] at h
        exact absurd h (by simp)
      · intro hex
        exact absurd (hany.mpr hex) hcond
    · intro v hv
      by_contra hne
      exact hcond (hany.mpr ⟨v, hv, hne⟩)
    · intro e he
      rw [hVL] at he
      exact absurd he (by simp)
    · intro _
      unfold Composition.validate
      rw [hVL]

/-- C3 witness: a composition with voices of lengths 1 and 2 fails
validation with the length error before any motion scan. -/
theorem C3_witness :
    Composition.validate ⟨[[60], [60, 62]], 1⟩ =
      Except.error "Voices are not the same length" :=
  (C3_validateLength_first ⟨[[60], [60, 62]], 1⟩).2.2.1 _ rfl

/-- C4: validateMotion returns normally exactly when no motion-timeline
entry is true; otherwise it fails carrying the message that accumulates,
in scan order, one line per entry of the complete ordered violation list,
each line naming the time and the 1-based voice numbers; and the violation
list contains exactly the sites whose motion-timeline entry is true. -/
theorem C4_validateMotion_report (c : Composition) :
    (c.validateMotion = Except.ok () ↔ c.violations = []) ∧
    (c.violations ≠ [] →
      c.validateMotion = Except.error
        (c.violations.foldl
          (fun msg v => msg ++ violationLine v.1 v.2.1 v.2.2) "")) ∧
    (∀ t i j, (t, i, j) ∈ c.violations ↔ mtEntry c t i j = some true) := by
  refine ⟨?_, ?_, fun t i j => mem_violations⟩
  · unfold Composition.validateMotion
    by_cases h : c.violations = []
    · rw [if_pos h]
      simp [h]
    · rw [if_neg h]
      simp [h]
  · intro h
    unfold Composition.validateMotion
    rw [if_neg h]

/-- C4 witness: a two-voice composition holding a fifth over consecutive
steps fails with the accumulated per-site message. -/
theorem C4_witness :
    Composition.validateMotion ⟨[[60, 62, 60], [67, 69, 67]], 3⟩ =
      Except.error
        ((Composition.violations ⟨[[60, 62, 60], [67, 69, 67]], 3⟩).foldl
          (fun msg v => msg ++ violationLine v.1 v.2.1 v.2.2) "") :=
  (C4_validateMotion_report ⟨[[60, 62, 60], [67, 69, 67]], 3⟩).2.1 (by decide)

/-- C8: validate, embedded as a state transformer, leaves the composition
(and in particular its voices and length) unchanged, and a second call on
the post-state composition returns the same outcome and the same violation
list as the first. -/
theorem C8_validate_idempotent (c : Composition) :
    c.validateRun.2 = c ∧
    c.validateRun.2.voices = c.voices ∧
    c.validateRun.2.length = c.length ∧
    c.validateRun.2.validateRun.1 = c.validateRun.1 ∧
    c.validateRun.2.violations = c.violations :=
  ⟨rfl, rfl, rfl, rfl, rfl⟩

/-- C10: the offset-indexed historical variant and the column-indexed
current variant detect the same violating sites — after reindexing an
offset entry (i, k) to the voice pair (i, i+1+k) the two scans produce the
very same ordered list — and consequently the two validate entry points
have the same success/failure outcome on every composition. -/
theorem C10_variants_agree (c : Composition) :
    c.v1Violations = c.violations ∧
    (c.validateV1 = Except.ok () ↔ c.validate = Except.ok ()) := by
  have hmain : c.v1Violations = c.violations := by
    unfold Composition.v1Violations Composition.violations
    rw [motionTimeline_length, parallelMotion_length]
    exact congrArg List.flatten (List.map_congr_left fun t ht =>
      (scanMatrix_eq_v1 c (List.mem_range.mp ht)).symm)
  refine ⟨hmain, ?_⟩
  unfold Composition.validateV1 Composition.validate
  cases hVL : c.validateLength with
  | error e => simp
  | ok u =>
    cases u
    unfold Composition.validateMotion
    by_cases hv : c.violations = []
    · have hdet : ¬ ((c.parallelMotion.flatten.flatten).any
          (fun b => b) = true) := by
        rw [detected_iff c, hmain]
        simp [hv]
      rw [if_neg hdet, if_pos hv]
    · have hdet : (c.parallelMotion.flatten.flatten).any
          (fun b => b) = true := by
        rw [detected_iff c, hmain]
        exact hv
      rw [if_pos hdet, if_neg hv]
      simp

end Hmmm
